import Mathlib

/-!
# Verification development for the contract-verification pipeline

Shallow embedding of the `Verifier` class (artifact index, import-graph
resolver, trimming, retrying submission protocol) and proofs of the
spec's claims about it.

Conventions of the embedding:
* JavaScript's insertion-ordered string-keyed objects become association
  lists `List (String × α)`; `obj[key]` is first-match lookup.
* JavaScript `Set<string>` (insertion ordered) becomes `List String`
  with membership test and append-if-new.
* Fallible code returns `JsResult`: `.ok` for a normal return, `.thrown`
  for a thrown `Error`, `.typeError` for a runtime `TypeError` (such as
  reading a property of `null`), and `.fuelOut` for the fuel-exhaustion
  artifact of the embedding of general recursion (proved unreachable for
  the fuel the wrappers pass).
-/

/-- Outcome of running a piece of JavaScript code in the embedding. -/
inductive JsResult (α : Type) where
  | ok (val : α)
  | thrown (msg : String)
  | typeError
  | fuelOut
deriving DecidableEq, Repr

namespace Verifier

/-! ## Strings: `String.includes` and the `/.*\/(\w*)\.sol/` regex -/

/-- Character class `\w` of a JavaScript regex (no `u` flag): ASCII letters, digits, underscore. -/
def isWordChar (c : Char) : Bool := c.isAlphanum || c == '_'

/-- Does `cs` start with the pattern `pat`? -/
def startsWithList : List Char → List Char → Bool
  | [], _ => true
  | _ :: _, [] => false
  | p :: ps, c :: cs => p == c && startsWithList ps cs

/-- JavaScript `s.includes(pat)`: `pat` occurs as a contiguous substring of `s`. -/
def strIncludes (s pat : String) : Bool :=
  (List.range (s.data.length + 1)).any (fun i => startsWithList pat.data (s.data.drop i))

/-- Matching the tail `/(\w*)\.sol` of the regex right after a `/`:
greedily take word characters, then require the literal `.sol`.
Returns the capture group. -/
def solCapture (rest : List Char) : Option String :=
  let w := rest.takeWhile isWordChar
  let r := rest.dropWhile isWordChar
  if startsWithList ".sol".data r then some (String.mk w) else none

/-- JavaScript `path.match(/.*\/(\w*)\.sol/)`, capture group 1.
The greedy `.*` picks the rightmost `/` after which `(\w*)\.sol` matches;
`none` models a `null` match result. -/
def solPathMatch (path : String) : Option String :=
  (List.range path.data.length).reverse.findSome? (fun i =>
    if path.data.get? i == some '/' then solCapture (path.data.drop (i + 1)) else none)

/-! ## Data model -/

/-- One entry of `CompilerInput.sources`: the embedding keeps the raw
content opaque and records the import-directive paths the Solidity
parser's `ImportDirective` visitor yields for it, in source order. -/
structure SourceFile where
  imports : List String
  content : String
deriving DecidableEq, Repr

/-- The ordered `sources` mapping of a `CompilerInput`. -/
abbrev SourcesMap := List (String × SourceFile)

/-- Structure `CompilerInput`: ordered sources plus the settings the pipeline reads
or writes (`settings.optimizer.enabled`, `settings.optimizer.runs`,
`settings.libraries`). -/
structure CompilerInput where
  sources : SourcesMap
  optimizerEnabled : Bool
  optimizerRuns : Nat
  libraries : List (String × String)
deriving DecidableEq, Repr

/-- JavaScript `input.sources[name]`: first-match lookup. -/
def lookupSource (sources : SourcesMap) (name : String) : Option SourceFile :=
  match sources.find? (fun kv => kv.1 == name) with
  | some kv => some kv.2
  | none => none

/-- The key list `Object.keys(input.sources)`, in insertion order. -/
def sourceKeys (sources : SourcesMap) : List String := sources.map Prod.fst

/-! ## Resolution: getContractSourceName and getAbsoluteSourcePath -/

/-- Source method `Verifier.getContractSourceName`: the first source path (in key
order) that `includes` the substring `/<contractName>.sol`; throws when
none does. -/
def getContractSourceName (contractName : String) (sources : SourcesMap) : JsResult String :=
  match (sourceKeys sources).find? (fun p => strIncludes p ("/" ++ contractName ++ ".sol")) with
  | some p => .ok p
  | none => .thrown ("Could not find source name for " ++ contractName)

/-- Source method `Verifier.getAbsoluteSourcePath`: extract the filename with the
regex `.*\/(\w*)\.sol` — a `null` match makes the non-null assertion
`(... as RegExpMatchArray)[1]` crash with a `TypeError` — then resolve
it through `getContractSourceName`. -/
def getAbsoluteSourcePath (relativeSourcePath : String) (sources : SourcesMap) : JsResult String :=
  match solPathMatch relativeSourcePath with
  | none => .typeError
  | some contractName => getContractSourceName contractName sources

example : solPathMatch "contracts/utils/Foo.sol" = some "Foo" := by decide
example : solPathMatch "./B.sol" = some "B" := by decide
example : solPathMatch "Foo.sol" = none := by decide
example : strIncludes "contracts/A.sol" "/A.sol" = true := by decide
example : strIncludes "contracts/AB.sol" "/A.sol" = false := by decide

/-! ## Import closure: getContractImportedSourceNames

The source recursion is
```
getContractImportedSourceNames(sourceName, input, previousSourceNames):
  ast := parse(input.sources[sourceName].content)
  for each ImportDirective node of ast (in order):
    imported := getAbsoluteSourcePath(node.path, input)
    if imported ∉ previousSourceNames:
      previousSourceNames :=
        getContractImportedSourceNames(imported, input, previousSourceNames ∪ {imported})
  return previousSourceNames
```
The embedding makes the `parser.visit` loop over the directives an
explicit list recursion (`importDirectiveLoop`) and supplies a fuel
argument for the nested recursion; each nested call strictly grows the
visited list with a fresh key of the sources mapping, so fuel
`sources.length + 1` can never run out (`closure_ne_fuelOut` below). -/

/-- The `parser.visit`/`ImportDirective` loop inside
`getContractImportedSourceNames`, over the remaining directive paths;
`go` is the nested recursive call on a newly discovered source. -/
def importDirectiveLoop (sources : SourcesMap)
    (go : String → List String → JsResult (List String)) :
    List String → List String → JsResult (List String)
  | [], previousSourceNames => .ok previousSourceNames
  | p :: ps, previousSourceNames =>
    match getAbsoluteSourcePath p sources with
    | .ok imported =>
      if previousSourceNames.contains imported then
        importDirectiveLoop sources go ps previousSourceNames
      else
        match go imported (previousSourceNames ++ [imported]) with
        | .ok previous2 => importDirectiveLoop sources go ps previous2
        | .thrown m => .thrown m
        | .typeError => .typeError
        | .fuelOut => .fuelOut
    | .thrown m => .thrown m
    | .typeError => .typeError
    | .fuelOut => .fuelOut

/-- Source method `Verifier.getContractImportedSourceNames` (fueled). Reading
`input.sources[sourceName].content` of an absent key is a `TypeError`. -/
def getContractImportedSourceNames (sources : SourcesMap) :
    Nat → String → List String → JsResult (List String)
  | 0, _, _ => .fuelOut
  | fuel + 1, sourceName, previousSourceNames =>
    match lookupSource sources sourceName with
    | none => .typeError
    | some src =>
      importDirectiveLoop sources (getContractImportedSourceNames sources fuel)
        src.imports previousSourceNames

/-- The import closure of `root`, as `trimmedBuildInfoInput` seeds it:
visited set starts as `{root}` (`new Set<string>().add(sourceName)`),
with fuel that is proved never to run out. -/
def importClosure (sources : SourcesMap) (root : String) : JsResult (List String) :=
  getContractImportedSourceNames sources (sources.length + 1) root [root]

/-! ## Trimming: trimmedBuildInfoInput -/

/-- The trimming expression of `trimmedBuildInfoInput`:
`Object.keys(input.sources).filter(s => keep.has(s)).map(s => ({[s]: input.sources[s]})).reduce(Object.assign, {})`. -/
def trimSources (sources : SourcesMap) (keep : List String) : SourcesMap :=
  (((sourceKeys sources).filter (fun s => keep.contains s)).filterMap
    (fun s => (lookupSource sources s).map (fun v => (s, v))))

/-- Source method `Verifier.trimmedBuildInfoInput`: resolve the contract's source
name, compute its import closure seeded with itself, and keep only the
sources in the closure, in the original key order (`{...input, sources: …}`
preserves every other field of the input). -/
def trimmedBuildInfoInput (contractName : String) (input : CompilerInput) :
    JsResult CompilerInput :=
  match getContractSourceName contractName input.sources with
  | .ok sourceName =>
    match importClosure input.sources sourceName with
    | .ok importedSourceNames =>
      .ok { input with sources := trimSources input.sources importedSourceNames }
    | .thrown m => .thrown m
    | .typeError => .typeError
    | .fuelOut => .fuelOut
  | .thrown m => .thrown m
  | .typeError => .typeError
  | .fuelOut => .fuelOut

/-! ## Artifact index: findBuildInfoWithContract -/

/-- A loaded build record: its compiler input together with the contract
names its compilation output declares.

Modelled from the spec: `getAllFullyQualifiedNames` lives in the
repository's `./buildinfo` module, which is not part of the visible
sources; per the spec a build record's "compiled-contract metadata
contains a locator with the given contract name", so the embedding keeps
the record's locators as a list of `(sourcePath, contractName)` pairs. -/
structure BuildInfo where
  input : CompilerInput
  outputLocators : List (String × String)
deriving DecidableEq, Repr

/-- Modelled from the spec: `getAllFullyQualifiedNames` (missing
`./buildinfo` module) enumerates the locators of a build record; the
scan in `findBuildInfoWithContract` only reads their `contractName`. -/
def getAllFullyQualifiedNames (buildInfo : BuildInfo) : List (String × String) :=
  buildInfo.outputLocators

/-- Source method `Verifier.findBuildInfoWithContract`: `buildInfos.find(...)` — the
first record, in load order, with a locator of the given contract name;
throws when none qualifies. -/
def findBuildInfoWithContract (buildInfos : List BuildInfo) (contractName : String) :
    JsResult BuildInfo :=
  match buildInfos.find? (fun buildInfo =>
      (getAllFullyQualifiedNames buildInfo).any (fun nm => nm.2 == contractName)) with
  | some found => .ok found
  | none => .thrown ("Could not find a build info for contract " ++ contractName)

/-- The state of the selected build record right after `verify` runs
`buildInfo.input = this.trimmedBuildInfoInput(name, buildInfo.input)`:
the assignment overwrites the `input` field of the very record object
the artifact index returned. -/
def selectedRecordAfterTrim (buildInfos : List BuildInfo) (name : String) :
    JsResult BuildInfo :=
  match findBuildInfoWithContract buildInfos name with
  | .ok buildInfo =>
    match trimmedBuildInfoInput name buildInfo.input with
    | .ok trimmed => .ok { buildInfo with input := trimmed }
    | .thrown m => .thrown m
    | .typeError => .typeError
    | .fuelOut => .fuelOut
  | .thrown m => .thrown m
  | .typeError => .typeError
  | .fuelOut => .fuelOut

/-- The state of the compiler input right after `attemptVerification`
runs `compilerInput.settings.libraries = contractInformation.libraryLinks`:
again an in-place overwrite of a field of the record it received. -/
def compilerInputAfterLibraries (compilerInput : CompilerInput)
    (libraryLinks : List (String × String)) : CompilerInput :=
  { compilerInput with libraries := libraryLinks }

/-! ## Retrying entry point: Verifier.call

`call` awaits `this.verify(...)` and classifies the response:
success → build the explorer URL; bytecode-missing and
`intent < MAX_VERIFICATION_INTENTS` → log (post-incrementing `intent`),
issue `delay(5000)` *without awaiting it*, and recurse with the
incremented intent (the second `intent++` passes the already-incremented
value); otherwise → throw. `verify` itself begins with `await delay(5000)`,
an awaited delay before every attempt; and since `verify` has a single
return statement, reached only through `attemptVerification`, every
attempt whose response `call` classifies has also completed
`attemptVerification`'s `await delay(5000)` issued right after the post
— two completed delays per attempt. The embedding abstracts the body of
`verify` (bytecode fetch, matching, submission) into a provider giving
each attempt's classification, and records the delay events of `call`,
of the head of `verify`, and of `attemptVerification`. -/

def MAX_VERIFICATION_INTENTS : Nat := 3

/-- Classification of one attempt's `verify` response, as `call` reads it
(`isVerificationSuccess()` / `isBytecodeMissingInNetworkError()`). -/
inductive VerifyClass where
  | success
  | bytecodeMissing
  | otherFailure
deriving DecidableEq, Repr

/-- A `delay(5000)` event: `awaited` when the promise is awaited before
proceeding, `notAwaited` when it is fired and dropped. -/
inductive DelayEvent where
  | awaited (ms : Nat)
  | notAwaited (ms : Nat)
deriving DecidableEq, Repr

/-- Model of `Verifier.call` run from attempt number `intent`: returns the final
outcome, the list of attempt numbers on which `verify` ran, and the
delay events in order. Each attempt contributes `verify`'s initial
`await delay(5000)` and then `attemptVerification`'s `await delay(5000)`
(completed on every attempt whose response `call` classifies); the retry
branch contributes its un-awaited `delay(5000)`. -/
def call (provider : Nat → VerifyClass) (address : String) (intent : Nat) :
    JsResult String × List Nat × List DelayEvent :=
  if provider intent = VerifyClass.success then
    (.ok ("https://neonscan.org/address/" ++ address ++ "#code"),
     [intent], [DelayEvent.awaited 5000, DelayEvent.awaited 5000])
  else if h2 : intent < MAX_VERIFICATION_INTENTS ∧
      provider intent = VerifyClass.bytecodeMissing then
    let rest := call provider address (intent + 1)
    (rest.1, intent :: rest.2.1,
     DelayEvent.awaited 5000 :: DelayEvent.awaited 5000 ::
       DelayEvent.notAwaited 5000 :: rest.2.2)
  else
    (.thrown "The contract verification failed.", [intent],
     [DelayEvent.awaited 5000, DelayEvent.awaited 5000])
termination_by MAX_VERIFICATION_INTENTS - intent
decreasing_by omega

/-! ## Submission side effects: verifyContract -/

/-- The wire-level request `attemptVerification` assembles. -/
structure VerifyRequest where
  contract_address : String
  source_code : List (String × String)
  contract_name : String
  version : String
  args : String
  optimization : Bool
  runs : Nat
  compiler_type : String
deriving DecidableEq, Repr

/-- Rendering `JSON.stringify` of the request, kept abstract but injective in the
contract name for the file-name claim. -/
def requestJson (req : VerifyRequest) : String :=
  String.intercalate "," ([
    "\x7b\"contract_address\":\"" ++ req.contract_address ++ "\"",
    "\"source_code\":[" ++ String.intercalate ","
      (req.source_code.map (fun fc =>
        "\x7b\"content\":\"" ++ fc.2 ++ "\",\"file_name\":\"" ++ fc.1 ++ "\"\x7d")) ++ "]",
    "\"contract_name\":\"" ++ req.contract_name ++ "\"",
    "\"version\":\"" ++ req.version ++ "\"",
    "\"args\":\"" ++ req.args ++ "\"",
    "\"optimization\":" ++ (if req.optimization then "true" else "false"),
    "\"runs\":" ++ toString req.runs,
    "\"compiler_type\":\"" ++ req.compiler_type ++ "\"\x7d"])

/-- Observable side effects of the submission path. -/
inductive Effect where
  | fileWrite (path : String) (content : String)
  | httpPost (url : String) (body : String)
deriving DecidableEq, Repr

/-- How the `axios.post` of one submission resolves. -/
inductive HttpOutcome where
  | success (status : Nat)
  | failBody (status : Nat)
  | netError (msg : String)
deriving DecidableEq, Repr

/-- Source method `Verifier.verifyContract`: first `fs.writeFileSync('./<contract_name>.json',
JSON.stringify(req))`, then `axios.post(url, req)`; a transport error or a
`success:false` body throws, a `success:true` body returns the response.
The effect list records the write and the post in program order. -/
def verifyContract (url : String) (req : VerifyRequest) (outcome : HttpOutcome) :
    JsResult Nat × List Effect :=
  let writeEffect := Effect.fileWrite ("./" ++ req.contract_name ++ ".json") (requestJson req)
  let postEffect := Effect.httpPost url (requestJson req)
  match outcome with
  | .netError m =>
    (.thrown ("Failed to send verification request. Reason: " ++ m), [writeEffect, postEffect])
  | .failBody status =>
    (.thrown ("Failed to send verification request.\nHTTP code: " ++ toString status ++ "."),
     [writeEffect, postEffect])
  | .success status => (.ok status, [writeEffect, postEffect])

/-! ## Concrete fixtures -/

/-- Two sources importing each other: `A.sol ↔ B.sol`. -/
def cyclicSources : SourcesMap :=
  [("contracts/A.sol", ⟨["./B.sol"], "import ./B.sol;"⟩),
   ("contracts/B.sol", ⟨["./A.sol"], "import ./A.sol;"⟩)]

/-- A one-way chain: `A.sol` imports `B.sol`, `B.sol` imports nothing. -/
def chainSources : SourcesMap :=
  [("contracts/A.sol", ⟨["./B.sol"], "import ./B.sol;"⟩),
   ("contracts/B.sol", ⟨[], "library B"⟩)]

/-- The end-to-end trimming example: `A.sol` imports `B.sol`; `B.sol`
and the unrelated `C.sol` import nothing. -/
def trimExampleInput : CompilerInput :=
  { sources :=
      [("contracts/A.sol", ⟨["./B.sol"], "import ./B.sol; contract A"⟩),
       ("contracts/B.sol", ⟨[], "library B"⟩),
       ("contracts/C.sol", ⟨[], "contract C"⟩)],
    optimizerEnabled := true, optimizerRuns := 200, libraries := [] }

/-- A source whose import directive path has no `/` before the file
name (`import "Foo.sol"`), plus a source the import is meant to hit. -/
def noSlashSources : SourcesMap :=
  [("contracts/A.sol", ⟨["Foo.sol"], "import Foo.sol; contract A"⟩),
   ("contracts/Foo.sol", ⟨[], "contract Foo"⟩)]

/-- The build record of the trimming example, declaring contracts
`A`, `B`, `C` in the three sources. -/
def trimExampleBuildInfo : BuildInfo :=
  { input := trimExampleInput,
    outputLocators :=
      [("contracts/A.sol", "A"), ("contracts/B.sol", "B"), ("contracts/C.sol", "C")] }

/-! ## Helper lemmas -/

theorem contains_iff_mem (l : List String) (a : String) : l.contains a = true ↔ a ∈ l := by
  simp [List.contains, List.elem_iff]

/-- First-match characterization of `List.find?`, the semantics of
JavaScript's `Array.prototype.find`. -/
theorem find?_first {α : Type} (p : α → Bool) :
    ∀ (l : List α) (a : α), l.find? p = some a ↔
      ∃ l₁ l₂, l = l₁ ++ a :: l₂ ∧ p a = true ∧ ∀ b ∈ l₁, p b = false := by
  intro l
  induction l with
  | nil => intro a; simp
  | cons c rest ih =>
    intro a
    by_cases hc : p c = true
    · rw [List.find?_cons_of_pos rest hc]
      constructor
      · intro h
        have hca : c = a := Option.some_inj.mp h
        subst hca
        exact ⟨[], rest, rfl, hc, by simp⟩
      · rintro ⟨l₁, l₂, hsplit, hpa, hfirst⟩
        cases l₁ with
        | nil =>
          have hca : c = a := by simpa using congrArg List.head? hsplit
          rw [hca]
        | cons d l₁' =>
          exfalso
          have hcd : c = d := by simpa using congrArg List.head? hsplit
          have hd : p d = false := hfirst d (by simp)
          rw [← hcd] at hd
          simp [hd] at hc
    · have hcf : p c = false := by simpa using hc
      rw [List.find?_cons_of_neg rest hc]
      rw [ih a]
      constructor
      · rintro ⟨l₁, l₂, hsplit, hpa, hfirst⟩
        refine ⟨c :: l₁, l₂, by simp [hsplit], hpa, ?_⟩
        intro b hb
        rcases List.mem_cons.mp hb with hb | hb
        · rw [hb]; exact hcf
        · exact hfirst b hb
      · rintro ⟨l₁, l₂, hsplit, hpa, hfirst⟩
        cases l₁ with
        | nil =>
          exfalso
          have hca : c = a := by simpa using congrArg List.head? hsplit
          rw [hca] at hcf
          simp [hpa] at hcf
        | cons d l₁' =>
          refine ⟨l₁', l₂, ?_, hpa, fun b hb => hfirst b (by simp [hb])⟩
          simpa using congrArg List.tail hsplit

/-- Filter with a stronger predicate that fails on one member of the
list is strictly shorter. -/
theorem length_filter_lt_of_dropped {α : Type} :
    ∀ (l : List α) (t : α), t ∈ l → ∀ (pn po : α → Bool),
      (∀ a, pn a = true → po a = true) → pn t = false → po t = true →
      (l.filter pn).length < (l.filter po).length := by
  intro l
  induction l with
  | nil => intro t ht; cases ht
  | cons c rest ih =>
    intro t ht pn po hmono hnt hot
    have hle : (rest.filter pn).length ≤ (rest.filter po).length := by
      clear ht ih
      induction rest with
      | nil => simp
      | cons d rest2 ih2 =>
        by_cases hd : pn d = true
        · simp [List.filter_cons, hd, hmono d hd]; omega
        · simp only [List.filter_cons, hd, if_neg, Bool.false_eq_true, not_false_iff]
          cases hod : po d <;> simp [hod] <;> omega
    rcases List.mem_cons.mp ht with rfl | ht
    · simp [List.filter_cons, hnt, hot]; omega
    · have := ih t ht pn po hmono hnt hot
      by_cases hc : pn c = true
      · simp [List.filter_cons, hc, hmono c hc]; omega
      · simp only [List.filter_cons, hc, if_neg, Bool.false_eq_true, not_false_iff]
        cases hoc : po c <;> simp [hoc] <;> omega

theorem length_filter_le_of_impl {α : Type} (l : List α) (pn po : α → Bool)
    (hmono : ∀ a, pn a = true → po a = true) :
    (l.filter pn).length ≤ (l.filter po).length := by
  induction l with
  | nil => simp
  | cons d rest ih =>
    by_cases hd : pn d = true
    · simp [List.filter_cons, hd, hmono d hd]; omega
    · simp only [List.filter_cons, hd, if_neg, Bool.false_eq_true, not_false_iff]
      cases hod : po d <;> simp [hod] <;> omega

/-! ## Spec-side notions for the import closure -/

/-- One import edge: source `s` has an import directive whose path
resolves (through `getAbsoluteSourcePath`) to source name `t`. -/
def importStep (sources : SourcesMap) (s t : String) : Prop :=
  ∃ src, lookupSource sources s = some src ∧
    ∃ p ∈ src.imports, getAbsoluteSourcePath p sources = .ok t

/-- Reachability along import edges (reflexive-transitive). -/
def Reachable (sources : SourcesMap) : String → String → Prop :=
  Relation.ReflTransGen (importStep sources)

/-- All import directives of source `t` resolve and land inside `l`. -/
def succClosed (sources : SourcesMap) (t : String) (l : List String) : Prop :=
  ∀ src, lookupSource sources t = some src →
    ∀ p ∈ src.imports, ∃ u, getAbsoluteSourcePath p sources = .ok u ∧ u ∈ l

theorem succClosed_mono {sources : SourcesMap} {t : String} {l l' : List String}
    (h : succClosed sources t l) (hsub : l ⊆ l') : succClosed sources t l' := by
  intro src hlk p hp
  obtain ⟨u, hu, hmem⟩ := h src hlk p hp
  exact ⟨u, hu, hsub hmem⟩

/-- Equation form of `getContractSourceName`'s success case. -/
theorem getContractSourceName_ok_iff {cn t : String} {sources : SourcesMap} :
    getContractSourceName cn sources = .ok t ↔
      (sourceKeys sources).find? (fun q => strIncludes q ("/" ++ cn ++ ".sol")) = some t := by
  unfold getContractSourceName
  cases hf : (sourceKeys sources).find? (fun q => strIncludes q ("/" ++ cn ++ ".sol")) with
  | none => simp
  | some q => simp

/-- Equation form of `getAbsoluteSourcePath`'s success case. -/
theorem getAbsoluteSourcePath_ok_iff {p t : String} {sources : SourcesMap} :
    getAbsoluteSourcePath p sources = .ok t ↔
      ∃ cn, solPathMatch p = some cn ∧ getContractSourceName cn sources = .ok t := by
  unfold getAbsoluteSourcePath
  cases hm : solPathMatch p with
  | none => simp
  | some cn => simp

/-- A resolved import path is a key of the sources mapping. -/
theorem getAbsoluteSourcePath_mem {p : String} {sources : SourcesMap} {t : String}
    (h : getAbsoluteSourcePath p sources = .ok t) : t ∈ sourceKeys sources := by
  obtain ⟨cn, _, hok⟩ := getAbsoluteSourcePath_ok_iff.mp h
  exact List.mem_of_find?_eq_some (getContractSourceName_ok_iff.mp hok)

/-- Number of keys of the mapping not yet visited: the termination
measure of the closure recursion. -/
def numNew (sources : SourcesMap) (prev : List String) : Nat :=
  ((sourceKeys sources).filter (fun k => !(prev.contains k))).length

theorem numNew_lt {sources : SourcesMap} {prev : List String} {t : String}
    (ht : t ∈ sourceKeys sources) (hnp : t ∉ prev) :
    numNew sources (prev ++ [t]) < numNew sources prev := by
  apply length_filter_lt_of_dropped _ t ht
  · intro a ha
    cases hc : prev.contains a with
    | false => simp [hc]
    | true =>
      exfalso
      have hmem : a ∈ prev ++ [t] :=
        List.mem_append.mpr (Or.inl ((contains_iff_mem _ _).mp hc))
      rw [(contains_iff_mem _ _).mpr hmem] at ha
      simp at ha
  · have hmem : (prev ++ [t]).contains t = true :=
      (contains_iff_mem _ _).mpr (by simp)
    simp [hmem]
  · cases hc : prev.contains t with
    | false => simp [hc]
    | true => exact absurd ((contains_iff_mem _ _).mp hc) hnp

theorem numNew_anti {sources : SourcesMap} {prev prev' : List String}
    (h : prev ⊆ prev') : numNew sources prev' ≤ numNew sources prev := by
  apply length_filter_le_of_impl
  intro a ha
  cases hc : prev.contains a with
  | false => simp [hc]
  | true =>
    exfalso
    have hmem : a ∈ prev' := h ((contains_iff_mem _ _).mp hc)
    rw [(contains_iff_mem _ _).mpr hmem] at ha
    simp at ha

theorem numNew_le_length (sources : SourcesMap) (prev : List String) :
    numNew sources prev ≤ sources.length := by
  calc numNew sources prev ≤ (sourceKeys sources).length := List.length_filter_le _ _
  _ = sources.length := by simp [sourceKeys]

theorem getAbsoluteSourcePath_ne_fuelOut (p : String) (sources : SourcesMap) :
    getAbsoluteSourcePath p sources ≠ .fuelOut := by
  unfold getAbsoluteSourcePath
  cases hm : solPathMatch p with
  | none => simp
  | some cn =>
    unfold getContractSourceName
    cases hf : (sourceKeys sources).find? (fun q => strIncludes q ("/" ++ cn ++ ".sol")) with
    | none => simp [hf]
    | some q => simp [hf]

/-! ## The closure invariant -/

/-- What a successful run of `getContractImportedSourceNames` seeded at
`s` with visited list `prev` guarantees about its result `l`. -/
def GoOK (sources : SourcesMap) (s : String) (prev l : List String) : Prop :=
  prev ⊆ l
  ∧ (∀ t ∈ l, t ∈ prev ∨ (t ∈ sourceKeys sources ∧ Reachable sources s t))
  ∧ (prev.Nodup → l.Nodup)
  ∧ (∀ t ∈ l, t ∉ prev → succClosed sources t l)
  ∧ succClosed sources s l

/-- What a successful run of the import-directive loop over the
remaining paths `ips` guarantees. -/
def LoopOK (sources : SourcesMap) (ips : List String) (prev l : List String) : Prop :=
  prev ⊆ l
  ∧ (∀ t ∈ l, t ∈ prev ∨ (t ∈ sourceKeys sources ∧
      ∃ u, (∃ q ∈ ips, getAbsoluteSourcePath q sources = .ok u) ∧ Reachable sources u t))
  ∧ (prev.Nodup → l.Nodup)
  ∧ (∀ t ∈ l, t ∉ prev → succClosed sources t l)
  ∧ (∀ q ∈ ips, ∃ u, getAbsoluteSourcePath q sources = .ok u ∧ u ∈ l)

theorem importDirectiveLoop_ok {sources : SourcesMap}
    {go : String → List String → JsResult (List String)}
    (hgo : ∀ s prev l, go s prev = .ok l → GoOK sources s prev l) :
    ∀ (ips prev l : List String),
      importDirectiveLoop sources go ips prev = .ok l → LoopOK sources ips prev l := by
  intro ips
  induction ips with
  | nil =>
    intro prev l h
    cases h
    refine ⟨fun x hx => hx, fun t ht => Or.inl ht, fun hn => hn, ?_, by simp⟩
    intro t ht htp
    exact absurd ht htp
  | cons p ps ih =>
    intro prev l h
    unfold importDirectiveLoop at h
    split at h
    next imported hres =>
      split at h
      next hmem =>
        have himp : imported ∈ prev := (contains_iff_mem _ _).mp hmem
        obtain ⟨L1, L2, L3, L4, L5⟩ := ih prev l h
        refine ⟨L1, ?_, L3, L4, ?_⟩
        · intro t ht
          rcases L2 t ht with htp | ⟨hk, u, ⟨q, hq, hqres⟩, hreach⟩
          · exact Or.inl htp
          · exact Or.inr ⟨hk, u, ⟨q, List.mem_cons_of_mem _ hq, hqres⟩, hreach⟩
        · intro q hq
          rcases List.mem_cons.mp hq with rfl | hq
          · exact ⟨imported, hres, L1 himp⟩
          · exact L5 q hq
      next hmem =>
        have himp : imported ∉ prev := fun hm2 => hmem ((contains_iff_mem _ _).mpr hm2)
        split at h
        next prev2 hgo2 =>
          obtain ⟨G1, G2, G3, G4, G5⟩ := hgo _ _ _ hgo2
          obtain ⟨L1, L2, L3, L4, L5⟩ := ih prev2 l h
          have hpl : prev ⊆ l := fun x hx => L1 (G1 (List.mem_append.mpr (Or.inl hx)))
          refine ⟨hpl, ?_, ?_, ?_, ?_⟩
          · intro t ht
            rcases L2 t ht with htp2 | ⟨hk, u, ⟨q, hq, hqres⟩, hreach⟩
            · rcases G2 t htp2 with htpi | ⟨hk, hreach⟩
              · rcases List.mem_append.mp htpi with htp | hti
                · exact Or.inl htp
                · have hti2 : t = imported := by simpa using hti
                  subst hti2
                  exact Or.inr ⟨getAbsoluteSourcePath_mem hres,
                    t, ⟨p, List.mem_cons_self _ _, hres⟩, Relation.ReflTransGen.refl⟩
              · exact Or.inr ⟨hk, imported, ⟨p, List.mem_cons_self _ _, hres⟩, hreach⟩
            · exact Or.inr ⟨hk, u, ⟨q, List.mem_cons_of_mem _ hq, hqres⟩, hreach⟩
          · intro hnp
            apply L3
            apply G3
            rw [List.nodup_middle]
            simpa using ⟨himp, hnp⟩
          · intro t ht htp
            by_cases htp2 : t ∈ prev2
            · by_cases hti : t ∈ prev ++ [imported]
              · have hti2 : t = imported := by
                  rcases List.mem_append.mp hti with h1 | h1
                  · exact absurd h1 htp
                  · simpa using h1
                subst hti2
                exact succClosed_mono G5 L1
              · exact succClosed_mono (G4 t htp2 hti) L1
            · exact L4 t ht htp2
          · intro q hq
            rcases List.mem_cons.mp hq with rfl | hq
            · exact ⟨imported, hres, L1 (G1 (List.mem_append.mpr (Or.inr (by simp))))⟩
            · exact L5 q hq
        next m hth => cases h
        next hte => cases h
        next hfo => cases h
    next m hth => cases h
    next hte => cases h
    next hfo => cases h

theorem getContractImportedSourceNames_ok (sources : SourcesMap) :
    ∀ (fuel : Nat) (s : String) (prev l : List String),
      getContractImportedSourceNames sources fuel s prev = .ok l → GoOK sources s prev l := by
  intro fuel
  induction fuel with
  | zero => intro s prev l h; cases h
  | succ f ih =>
    intro s prev l h
    unfold getContractImportedSourceNames at h
    split at h
    next hlk => cases h
    next src hlk =>
      obtain ⟨L1, L2, L3, L4, L5⟩ := importDirectiveLoop_ok ih _ _ _ h
      refine ⟨L1, ?_, L3, L4, ?_⟩
      · intro t ht
        rcases L2 t ht with htp | ⟨hk, u, ⟨q, hq, hqres⟩, hreach⟩
        · exact Or.inl htp
        · exact Or.inr ⟨hk, Relation.ReflTransGen.head ⟨src, hlk, q, hq, hqres⟩ hreach⟩
      · intro src' hlk' q hq
        have hsrc : src' = src := by
          rw [hlk] at hlk'
          exact (Option.some_inj.mp hlk').symm
        subst hsrc
        exact L5 q hq

/-! ## Fuel never runs out for the fuel the wrapper passes -/

theorem importDirectiveLoop_fuel {sources : SourcesMap} {F : Nat}
    {go : String → List String → JsResult (List String)}
    (hgrow : ∀ s prev l, go s prev = .ok l → prev ⊆ l)
    (hgo : ∀ s prev, numNew sources prev < F → go s prev ≠ .fuelOut) :
    ∀ (ips prev : List String), numNew sources prev ≤ F →
      importDirectiveLoop sources go ips prev ≠ .fuelOut := by
  intro ips
  induction ips with
  | nil =>
    intro prev hF h
    unfold importDirectiveLoop at h
    cases h
  | cons p ps ih =>
    intro prev hF h
    unfold importDirectiveLoop at h
    split at h
    next imported hres =>
      split at h
      next hmem => exact ih prev hF h
      next hmem =>
        have himp : imported ∉ prev := fun hm2 => hmem ((contains_iff_mem _ _).mpr hm2)
        have hkey : imported ∈ sourceKeys sources := getAbsoluteSourcePath_mem hres
        have hlt : numNew sources (prev ++ [imported]) < F :=
          lt_of_lt_of_le (numNew_lt hkey himp) hF
        split at h
        next prev2 hgo2 =>
          have hsub : prev ++ [imported] ⊆ prev2 := hgrow _ _ _ hgo2
          exact ih prev2 (le_trans (numNew_anti hsub) (le_of_lt hlt)) h
        next m hth => cases h
        next hte => cases h
        next hfo => exact hgo _ _ hlt hfo
    next m hth => cases h
    next hte => cases h
    next hfo => exact getAbsoluteSourcePath_ne_fuelOut p sources hfo

theorem getContractImportedSourceNames_fuel (sources : SourcesMap) :
    ∀ (fuel : Nat) (s : String) (prev : List String),
      numNew sources prev < fuel →
      getContractImportedSourceNames sources fuel s prev ≠ .fuelOut := by
  intro fuel
  induction fuel with
  | zero => intro s prev hF; exact absurd hF (Nat.not_lt_zero _)
  | succ f ih =>
    intro s prev hF h
    unfold getContractImportedSourceNames at h
    split at h
    next hlk => cases h
    next src hlk =>
      exact importDirectiveLoop_fuel
        (fun s' prev' l' h' => (getContractImportedSourceNames_ok sources f s' prev' l' h').1)
        (fun s' prev' hlt => ih s' prev' hlt)
        src.imports prev (Nat.lt_succ_iff.mp hF) h

/-! ## The import closure: termination and exact characterization -/

theorem importClosure_ne_fuelOut (sources : SourcesMap) (root : String) :
    importClosure sources root ≠ .fuelOut := by
  apply getContractImportedSourceNames_fuel
  have h1 : numNew sources [root] ≤ sources.length := numNew_le_length sources [root]
  omega

/-- Whenever the closure computation returns a set, that set contains
the root, has no duplicates, and is exactly the set of sources reachable
from the root along import edges. -/
theorem importClosure_spec {sources : SourcesMap} {root : String} {l : List String}
    (h : importClosure sources root = .ok l) :
    root ∈ l ∧ l.Nodup ∧ ∀ t, (t ∈ l ↔ Reachable sources root t) := by
  obtain ⟨G1, G2, G3, G4, G5⟩ := getContractImportedSourceNames_ok sources _ _ _ _ h
  have hroot : root ∈ l := G1 (by simp)
  refine ⟨hroot, G3 (by simp), ?_⟩
  intro t
  constructor
  · intro ht
    rcases G2 t ht with htp | ⟨_, hreach⟩
    · have ht2 : t = root := by simpa using htp
      subst ht2
      exact Relation.ReflTransGen.refl
    · exact hreach
  · intro hreach
    induction hreach with
    | refl => exact hroot
    | tail h1 h2 ih =>
      obtain ⟨src, hlk, q, hq, hqres⟩ := h2
      rename_i b c
      have hsc : succClosed sources b l := by
        by_cases hb : b = root
        · subst hb; exact G5
        · exact G4 b ih (by simpa using hb)
      obtain ⟨u, hu, hmem⟩ := hsc src hlk q hq
      rw [hqres] at hu
      cases hu
      exact hmem

/-! ## Trimming preserves original key order -/

theorem lookupSource_cons_self (kv : String × SourceFile) (rest : SourcesMap) :
    lookupSource (kv :: rest) kv.1 = some kv.2 := by
  unfold lookupSource
  rw [List.find?_cons_of_pos rest (by simp)]

theorem lookupSource_cons_ne {kv : String × SourceFile} {rest : SourcesMap} {s : String}
    (h : kv.1 ≠ s) : lookupSource (kv :: rest) s = lookupSource rest s := by
  unfold lookupSource
  rw [List.find?_cons_of_neg rest (by simp [h])]

/-- With duplicate-free keys (always true of a JavaScript object), the
filter/map/reduce trimming expression is a plain order-preserving filter
of the original entry list. -/
theorem trimSources_eq_filter :
    ∀ (sources : SourcesMap) (keep : List String),
      (sourceKeys sources).Nodup →
      trimSources sources keep = sources.filter (fun kv => keep.contains kv.1) := by
  intro sources
  induction sources with
  | nil => intro keep hnd; rfl
  | cons kv rest ih =>
    intro keep hnd
    rw [show sourceKeys (kv :: rest) = kv.1 :: sourceKeys rest from rfl] at hnd
    obtain ⟨hkni, hknd⟩ := List.nodup_cons.mp hnd
    have hcongr : ∀ s ∈ (sourceKeys rest).filter (fun s => keep.contains s),
        (lookupSource (kv :: rest) s).map (fun v => (s, v)) =
        (lookupSource rest s).map (fun v => (s, v)) := by
      intro s hs
      have hsr : s ∈ sourceKeys rest := (List.mem_filter.mp hs).1
      have hne : kv.1 ≠ s := fun he => hkni (he ▸ hsr)
      rw [lookupSource_cons_ne hne]
    by_cases hq : keep.contains kv.1 = true
    · calc trimSources (kv :: rest) keep
          = ((kv.1 :: sourceKeys rest).filter (fun s => keep.contains s)).filterMap
              (fun s => (lookupSource (kv :: rest) s).map (fun v => (s, v))) := rfl
        _ = (kv.1 :: (sourceKeys rest).filter (fun s => keep.contains s)).filterMap
              (fun s => (lookupSource (kv :: rest) s).map (fun v => (s, v))) := by
              rw [List.filter_cons, if_pos hq]
        _ = kv :: ((sourceKeys rest).filter (fun s => keep.contains s)).filterMap
              (fun s => (lookupSource (kv :: rest) s).map (fun v => (s, v))) := by
              rw [List.filterMap_cons, lookupSource_cons_self]
              exact rfl
        _ = kv :: trimSources rest keep := by
              rw [List.filterMap_congr hcongr]
              exact rfl
        _ = kv :: rest.filter (fun kv2 => keep.contains kv2.1) := by rw [ih keep hknd]
        _ = (kv :: rest).filter (fun kv2 => keep.contains kv2.1) := by
              rw [List.filter_cons, if_pos hq]
    · calc trimSources (kv :: rest) keep
          = ((kv.1 :: sourceKeys rest).filter (fun s => keep.contains s)).filterMap
              (fun s => (lookupSource (kv :: rest) s).map (fun v => (s, v))) := rfl
        _ = ((sourceKeys rest).filter (fun s => keep.contains s)).filterMap
              (fun s => (lookupSource (kv :: rest) s).map (fun v => (s, v))) := by
              rw [List.filter_cons, if_neg hq]
        _ = trimSources rest keep := by
              rw [List.filterMap_congr hcongr]
              exact rfl
        _ = rest.filter (fun kv2 => keep.contains kv2.1) := ih keep hknd
        _ = (kv :: rest).filter (fun kv2 => keep.contains kv2.1) := by
              rw [List.filter_cons, if_neg hq]

/-! ## Equations of call -/

theorem call_success (provider : Nat → VerifyClass) (address : String) (intent : Nat)
    (h : provider intent = VerifyClass.success) :
    call provider address intent =
      (.ok ("https://neonscan.org/address/" ++ address ++ "#code"), [intent],
       [DelayEvent.awaited 5000, DelayEvent.awaited 5000]) := by
  unfold call
  rw [if_pos h]

theorem call_retry (provider : Nat → VerifyClass) (address : String) (intent : Nat)
    (h : provider intent = VerifyClass.bytecodeMissing)
    (h2 : intent < MAX_VERIFICATION_INTENTS) :
    call provider address intent =
      ((call provider address (intent + 1)).1,
       intent :: (call provider address (intent + 1)).2.1,
       DelayEvent.awaited 5000 :: DelayEvent.awaited 5000 ::
         DelayEvent.notAwaited 5000 ::
           (call provider address (intent + 1)).2.2) := by
  conv_lhs => rw [call]
  rw [if_neg (by simp [h]), dif_pos ⟨h2, h⟩]

theorem call_stop (provider : Nat → VerifyClass) (address : String) (intent : Nat)
    (h : provider intent ≠ VerifyClass.success)
    (h2 : ¬(intent < MAX_VERIFICATION_INTENTS ∧
        provider intent = VerifyClass.bytecodeMissing)) :
    call provider address intent =
      (.thrown "The contract verification failed.", [intent],
       [DelayEvent.awaited 5000, DelayEvent.awaited 5000]) := by
  unfold call
  rw [if_neg h, dif_neg h2]

/-- Every attempt contributes exactly two completed (awaited) delays —
the one at the head of `verify` and the one in `attemptVerification`
after the post — and every retry transition exactly one un-awaited
delay: completed delays = 2 × attempts, un-awaited delays =
attempts − 1. -/
theorem call_delay_counts (provider : Nat → VerifyClass) (address : String) :
    ∀ (k intent : Nat), MAX_VERIFICATION_INTENTS - intent ≤ k →
      (call provider address intent).2.2.count (DelayEvent.awaited 5000) =
        2 * (call provider address intent).2.1.length
      ∧ (call provider address intent).2.2.count (DelayEvent.notAwaited 5000) + 1 =
        (call provider address intent).2.1.length := by
  intro k
  induction k with
  | zero =>
    intro intent hk
    by_cases hs : provider intent = VerifyClass.success
    · rw [call_success provider address intent hs]
      exact ⟨rfl, rfl⟩
    · have h2 : ¬(intent < MAX_VERIFICATION_INTENTS ∧
          provider intent = VerifyClass.bytecodeMissing) := fun hc => absurd hc.1 (by omega)
      rw [call_stop provider address intent hs h2]
      exact ⟨rfl, rfl⟩
  | succ k ih =>
    intro intent hk
    by_cases hs : provider intent = VerifyClass.success
    · rw [call_success provider address intent hs]
      exact ⟨rfl, rfl⟩
    · by_cases h2 : intent < MAX_VERIFICATION_INTENTS ∧
          provider intent = VerifyClass.bytecodeMissing
      · rw [call_retry provider address intent h2.2 h2.1]
        obtain ⟨c1, c2⟩ := ih (intent + 1) (by omega)
        constructor
        · simp only [List.count_cons, List.length_cons]
          simp
          omega
        · simp only [List.count_cons, List.length_cons]
          simp
          omega
      · rw [call_stop provider address intent hs h2]
        exact ⟨rfl, rfl⟩

/-- Equation form of `findBuildInfoWithContract`'s success case. -/
theorem findBuildInfoWithContract_ok_iff {buildInfos : List BuildInfo}
    {contractName : String} {bi : BuildInfo} :
    findBuildInfoWithContract buildInfos contractName = .ok bi ↔
      buildInfos.find? (fun b =>
        (getAllFullyQualifiedNames b).any (fun nm => nm.2 == contractName)) = some bi := by
  unfold findBuildInfoWithContract
  cases hf : buildInfos.find? (fun b =>
      (getAllFullyQualifiedNames b).any (fun nm => nm.2 == contractName)) with
  | none => simp [hf]
  | some b => simp [hf]

/-! ## Further fixtures for the claims -/

/-- Two distinct source paths that both contain the substring `/X.sol`. -/
def ambiguousSources : SourcesMap :=
  [("a/X.sol", ⟨[], "contract X"⟩), ("b/X.sol", ⟨[], "contract X"⟩)]

/-- A single source path that contains `/X.sol` strictly in its middle:
its file name (the part after the last `/`) is `nested.txt`. -/
def substringSources : SourcesMap :=
  [("a/X.sol/nested.txt", ⟨[], "not X"⟩)]

/-- A single source path whose file name is `X.txt` — it ends with
`/X.<ext>` for the extension `txt`, but not with the fixed `.sol`. -/
def wrongExtSources : SourcesMap :=
  [("a/X.txt", ⟨[], "contract X"⟩)]

/-- The file name of a path: the part after the last `/`. Used only to
state, of a concrete path, whether it ends with `/<contractName>.<ext>`:
it does for some extension exactly when its file name starts with
`<contractName>.`. -/
def pathFileName (s : String) : String :=
  String.mk ((s.data.reverse.takeWhile (fun c => !(c == '/'))).reverse)

/-- A network provider whose deployed bytecode is absent on the first
two attempts and present from the third attempt on. -/
def absentTwice : Nat → VerifyClass :=
  fun n => if n ≤ 2 then VerifyClass.bytecodeMissing else VerifyClass.success

/-- The trimmed compiler input of the trimming example: `C.sol` dropped. -/
def trimmedExampleInput : CompilerInput :=
  { trimExampleInput with sources :=
      [("contracts/A.sol", ⟨["./B.sol"], "import ./B.sol; contract A"⟩),
       ("contracts/B.sol", ⟨[], "library B"⟩)] }

/-! ## The claims -/

/-- C1: with maxAttempts = 3 (`MAX_VERIFICATION_INTENTS`) and a provider
that classifies every attempt as "deployed bytecode absent from network",
the retrying entry point `call` ends in a terminal failure (a thrown
error) after exactly the attempts 1, 2, 3 — never a 4th; and in any run,
a retry (more than one attempt) happens only when the current attempt is
classified bytecode-missing and the attempt count is strictly below
maxAttempts. -/
theorem claim_C1_retry_bound :
    (∀ (provider : Nat → VerifyClass) (address : String),
      (∀ n, provider n = VerifyClass.bytecodeMissing) →
      call provider address 1 =
        (.thrown "The contract verification failed.", [1, 2, 3],
         [DelayEvent.awaited 5000, DelayEvent.awaited 5000, DelayEvent.notAwaited 5000,
          DelayEvent.awaited 5000, DelayEvent.awaited 5000, DelayEvent.notAwaited 5000,
          DelayEvent.awaited 5000, DelayEvent.awaited 5000]))
  ∧ (∀ (provider : Nat → VerifyClass) (address : String) (intent : Nat),
      1 < (call provider address intent).2.1.length →
      provider intent = VerifyClass.bytecodeMissing ∧
        intent < MAX_VERIFICATION_INTENTS) := by
  constructor
  · intro provider address h
    rw [call_retry provider address 1 (h 1) (by decide),
        call_retry provider address 2 (h 2) (by decide),
        call_stop provider address 3 (by simp [h 3]) (fun hc => absurd hc.1 (by decide))]
  · intro provider address intent hlen
    by_cases hs : provider intent = VerifyClass.success
    · rw [call_success provider address intent hs] at hlen
      simp at hlen
    · by_cases h2 : intent < MAX_VERIFICATION_INTENTS ∧
          provider intent = VerifyClass.bytecodeMissing
      · exact ⟨h2.2, h2.1⟩
      · rw [call_stop provider address intent hs h2] at hlen
        simp at hlen

/-- Witness for C1: the always-absent provider at a concrete address. -/
theorem claim_C1_retry_bound_witness :
    call (fun _ => VerifyClass.bytecodeMissing) "0x1234" 1 =
      (.thrown "The contract verification failed.", [1, 2, 3],
       [DelayEvent.awaited 5000, DelayEvent.awaited 5000, DelayEvent.notAwaited 5000,
        DelayEvent.awaited 5000, DelayEvent.awaited 5000, DelayEvent.notAwaited 5000,
        DelayEvent.awaited 5000, DelayEvent.awaited 5000]) :=
  claim_C1_retry_bound.1 (fun _ => VerifyClass.bytecodeMissing) "0x1234" (fun _ => rfl)

/-- C2: the closure computation never diverges (the fuel the wrapper
passes can never run out); whenever it returns a set, that set contains
the root, has no duplicate entries, and is exactly the set of source
paths reachable from the root via import directives; and on the cyclic
graph where A imports B and B imports A it terminates with exactly
{A, B}. -/
theorem claim_C2_closure_exact :
    (∀ (sources : SourcesMap) (root : String), importClosure sources root ≠ .fuelOut)
  ∧ (∀ (sources : SourcesMap) (root : String) (l : List String),
      importClosure sources root = .ok l →
      root ∈ l ∧ l.Nodup ∧ ∀ t, (t ∈ l ↔ Reachable sources root t))
  ∧ importClosure cyclicSources "contracts/A.sol" =
      .ok ["contracts/A.sol", "contracts/B.sol"] :=
  ⟨importClosure_ne_fuelOut, fun _ _ _ h => importClosure_spec h, by decide⟩

/-- Witness for C2: the cyclic two-source record, evaluated concretely. -/
theorem claim_C2_closure_exact_witness :
    "contracts/A.sol" ∈ ["contracts/A.sol", "contracts/B.sol"]
  ∧ (["contracts/A.sol", "contracts/B.sol"] : List String).Nodup
  ∧ ∀ t, (t ∈ ["contracts/A.sol", "contracts/B.sol"] ↔
      Reachable cyclicSources "contracts/A.sol" t) :=
  claim_C2_closure_exact.2.1 cyclicSources "contracts/A.sol"
    ["contracts/A.sol", "contracts/B.sol"] (by decide)

/-- C4 is corrected by this counterexample: with a provider that is
absent twice then present and maxAttempts = 3, the run does succeed on
the third attempt, but it performs six completed 5-second waits — two
per attempt, from the head of `verify` and from `attemptVerification`
after the post — not the claimed exactly two; the very first delay event
precedes the first attempt (it is `verify`'s initial awaited delay), so
delays are not confined to the gaps between retry attempts; and the
delay issued in `call`'s retry branch is not awaited at all. -/
theorem claim_C4_counterexample :
    (call absentTwice "0xabc" 1).1 = .ok "https://neonscan.org/address/0xabc#code"
  ∧ (call absentTwice "0xabc" 1).2.1 = [1, 2, 3]
  ∧ (call absentTwice "0xabc" 1).2.2.count (DelayEvent.awaited 5000) = 6
  ∧ ((call absentTwice "0xabc" 1).2.2.count (DelayEvent.awaited 5000) = 2 → False)
  ∧ (call absentTwice "0xabc" 1).2.2.head? = some (DelayEvent.awaited 5000) := by
  have h1 : call absentTwice "0xabc" 1 =
      (.ok "https://neonscan.org/address/0xabc#code", [1, 2, 3],
       [DelayEvent.awaited 5000, DelayEvent.awaited 5000, DelayEvent.notAwaited 5000,
        DelayEvent.awaited 5000, DelayEvent.awaited 5000, DelayEvent.notAwaited 5000,
        DelayEvent.awaited 5000, DelayEvent.awaited 5000]) := by
    rw [call_retry absentTwice "0xabc" 1 (by decide) (by decide),
        call_retry absentTwice "0xabc" 2 (by decide) (by decide),
        call_success absentTwice "0xabc" 3 (by decide)]
    decide
  rw [h1]
  exact ⟨rfl, rfl, by decide, by decide, rfl⟩

/-- C4 (amended): the absent-absent-present run with maxAttempts = 3
succeeds on the third attempt; every attempt (the first included)
completes two awaited 5-second delays — `verify`'s initial one and
`attemptVerification`'s one after the post — and an un-awaited
`delay(5000)` is fired in `call`'s retry branch between consecutive
attempts; in general the completed delays number exactly twice the
attempts and the un-awaited ones exactly the retries (attempts − 1). -/
theorem claim_C4_delay_trace :
    (call absentTwice "0xabc" 1).1 = .ok "https://neonscan.org/address/0xabc#code"
  ∧ (call absentTwice "0xabc" 1).2.1 = [1, 2, 3]
  ∧ (call absentTwice "0xabc" 1).2.2 =
      [DelayEvent.awaited 5000, DelayEvent.awaited 5000, DelayEvent.notAwaited 5000,
       DelayEvent.awaited 5000, DelayEvent.awaited 5000, DelayEvent.notAwaited 5000,
       DelayEvent.awaited 5000, DelayEvent.awaited 5000]
  ∧ (∀ (provider : Nat → VerifyClass) (address : String) (intent : Nat),
      (call provider address intent).2.2.count (DelayEvent.awaited 5000) =
        2 * (call provider address intent).2.1.length
      ∧ (call provider address intent).2.2.count (DelayEvent.notAwaited 5000) + 1 =
        (call provider address intent).2.1.length) := by
  have h1 : call absentTwice "0xabc" 1 =
      (.ok "https://neonscan.org/address/0xabc#code", [1, 2, 3],
       [DelayEvent.awaited 5000, DelayEvent.awaited 5000, DelayEvent.notAwaited 5000,
        DelayEvent.awaited 5000, DelayEvent.awaited 5000, DelayEvent.notAwaited 5000,
        DelayEvent.awaited 5000, DelayEvent.awaited 5000]) := by
    rw [call_retry absentTwice "0xabc" 1 (by decide) (by decide),
        call_retry absentTwice "0xabc" 2 (by decide) (by decide),
        call_success absentTwice "0xabc" 3 (by decide)]
    decide
  refine ⟨by rw [h1], by rw [h1], by rw [h1], ?_⟩
  intro provider address intent
  exact call_delay_counts provider address MAX_VERIFICATION_INTENTS intent (Nat.sub_le _ _)

/-- C8 is corrected by this counterexample: in the record where
A.sol imports B.sol and B.sol imports nothing, B.sol lies in the closure
of A.sol, yet re-seeding the computation at B.sol yields {B.sol}, not the
same set {A.sol, B.sol}: closure is not idempotent under re-seeding,
because reachability is directed. -/
theorem claim_C8_counterexample :
    importClosure chainSources "contracts/A.sol" =
      .ok ["contracts/A.sol", "contracts/B.sol"]
  ∧ importClosure chainSources "contracts/B.sol" = .ok ["contracts/B.sol"]
  ∧ "contracts/B.sol" ∈ ["contracts/A.sol", "contracts/B.sol"]
  ∧ ((∀ t : String, t ∈ ["contracts/A.sol", "contracts/B.sol"] ↔
      t ∈ ["contracts/B.sol"]) → False) := by
  refine ⟨by decide, by decide, by decide, fun hall => ?_⟩
  have h := (hall "contracts/A.sol").mp (by decide)
  exact absurd h (by decide)

/-- C8 (amended): the closure of the root always contains the root, and
for any path already in the closure of the root, the closure re-seeded
at that path is a subset of (not necessarily equal to) the closure of
the root. -/
theorem claim_C8_reseed_subset :
    (∀ (sources : SourcesMap) (root : String) (l : List String),
      importClosure sources root = .ok l → root ∈ l)
  ∧ (∀ (sources : SourcesMap) (root path : String) (l l' : List String),
      importClosure sources root = .ok l →
      importClosure sources path = .ok l' →
      path ∈ l → ∀ t ∈ l', t ∈ l) := by
  constructor
  · intro sources root l h
    exact (importClosure_spec h).1
  · intro sources root path l l' h h' hpath t ht
    have S := importClosure_spec h
    have S' := importClosure_spec h'
    have h1 : Reachable sources root path := (S.2.2 path).mp hpath
    have h2 : Reachable sources path t := (S'.2.2 t).mp ht
    exact (S.2.2 t).mpr (h1.trans h2)

/-- Witness for C8 (amended), at the one-way chain record. -/
theorem claim_C8_reseed_subset_witness :
    "contracts/A.sol" ∈ ["contracts/A.sol", "contracts/B.sol"] :=
  claim_C8_reseed_subset.1 chainSources "contracts/A.sol"
    ["contracts/A.sol", "contracts/B.sol"] (by decide)

/-- C3: for a record with duplicate-free source keys, trimming keeps
exactly the source entries whose key lies in the computed closure set,
in a sub-sequence of the original key order (it is a filter of the
original entry list, hence a sublist — not the traversal order), while
every other field of the compiler input is preserved; and on the
three-source example (A imports B, C unrelated) verifying a contract in
A.sol trims to A.sol and B.sol in original order, excluding C.sol. -/
theorem claim_C3_trim_order :
    (∀ (contractName : String) (input : CompilerInput) (sourceName : String)
        (closureSet : List String),
      (sourceKeys input.sources).Nodup →
      getContractSourceName contractName input.sources = .ok sourceName →
      importClosure input.sources sourceName = .ok closureSet →
      trimmedBuildInfoInput contractName input =
        .ok { input with
          sources := input.sources.filter (fun kv => closureSet.contains kv.1) }
      ∧ List.Sublist (input.sources.filter (fun kv => closureSet.contains kv.1))
          input.sources
      ∧ (∀ kv, kv ∈ input.sources.filter (fun kv => closureSet.contains kv.1) ↔
          kv ∈ input.sources ∧ kv.1 ∈ closureSet))
  ∧ trimmedBuildInfoInput "A" trimExampleInput = .ok trimmedExampleInput := by
  constructor
  · intro contractName input sourceName closureSet hnd hsn hcl
    refine ⟨?_, List.filter_sublist _, ?_⟩
    · unfold trimmedBuildInfoInput
      simp only [hsn, hcl]
      rw [trimSources_eq_filter input.sources closureSet hnd]
    · intro kv
      rw [List.mem_filter, contains_iff_mem]
  · decide

/-- Witness for C3: the three-source record, with the closure of A.sol
computed concretely. -/
theorem claim_C3_trim_order_witness :
    trimmedBuildInfoInput "A" trimExampleInput =
      .ok { trimExampleInput with
        sources := trimExampleInput.sources.filter (fun kv =>
          (["contracts/A.sol", "contracts/B.sol"] : List String).contains kv.1) } :=
  (claim_C3_trim_order.1 "A" trimExampleInput "contracts/A.sol"
    ["contracts/A.sol", "contracts/B.sol"] (by decide) (by decide) (by decide)).1

/-- C5 is corrected by this counterexample, which exhibits each way the
claim fails on the code. First, with two source paths that both match
`/X.sol`, `getContractSourceName` does not fail with an ambiguity error
— it returns the first match in key order (the second conjunct shows the
second path also matches). Second, matching is substring containment,
not an ends-with check: the path `a/X.sol/nested.txt`, whose file name
`nested.txt` does not start with `X.` (so the path ends with
`/<X>.<ext>` for no extension), is nevertheless returned for `X`.
Third, the extension is fixed to `.sol`: the path `a/X.txt` ends with
`/X.<ext>` for the extension `txt`, yet resolution fails with the
not-found error. -/
theorem claim_C5_counterexample :
    (getContractSourceName "X" ambiguousSources = .ok "a/X.sol"
      ∧ strIncludes "b/X.sol" ("/" ++ "X" ++ ".sol") = true
      ∧ ((∃ m, getContractSourceName "X" ambiguousSources = .thrown m) → False))
  ∧ (getContractSourceName "X" substringSources = .ok "a/X.sol/nested.txt"
      ∧ pathFileName "a/X.sol/nested.txt" = "nested.txt"
      ∧ startsWithList "X.".data (pathFileName "a/X.sol/nested.txt").data = false)
  ∧ (getContractSourceName "X" wrongExtSources =
        .thrown ("Could not find source name for " ++ "X")
      ∧ pathFileName "a/X.txt" = "X.txt"
      ∧ startsWithList "X.".data (pathFileName "a/X.txt").data = true) := by
  refine ⟨⟨by decide, by decide, fun hex => ?_⟩, ⟨by decide, by decide, by decide⟩,
    by decide, by decide, by decide⟩
  obtain ⟨m, hm⟩ := hex
  rw [show getContractSourceName "X" ambiguousSources = .ok "a/X.sol" from by decide] at hm
  cases hm

/-- C5 (amended): `getContractSourceName` returns the first source path
in key order containing the substring `/<contractName>.sol` (fixed
extension `.sol`, containment rather than suffix, no ambiguity check —
every earlier key does not match, later keys may), and fails with a
not-found error exactly when no key matches. -/
theorem claim_C5_first_match :
    ∀ (contractName : String) (sources : SourcesMap),
      (∀ p, getContractSourceName contractName sources = .ok p ↔
        ∃ ks1 ks2, sourceKeys sources = ks1 ++ p :: ks2
          ∧ strIncludes p ("/" ++ contractName ++ ".sol") = true
          ∧ ∀ q ∈ ks1, strIncludes q ("/" ++ contractName ++ ".sol") = false)
    ∧ ((∀ q ∈ sourceKeys sources, strIncludes q ("/" ++ contractName ++ ".sol") = false) →
        getContractSourceName contractName sources =
          .thrown ("Could not find source name for " ++ contractName)) := by
  intro contractName sources
  constructor
  · intro p
    rw [getContractSourceName_ok_iff, find?_first]
  · intro hnone
    have hf : (sourceKeys sources).find?
        (fun q => strIncludes q ("/" ++ contractName ++ ".sol")) = none :=
      List.find?_eq_none.mpr (fun q hq => by simp [hnone q hq])
    unfold getContractSourceName
    rw [hf]

/-- Witness for C5 (amended): a contract name matching no source path. -/
theorem claim_C5_first_match_witness :
    getContractSourceName "Y" ambiguousSources =
      .thrown ("Could not find source name for " ++ "Y") :=
  (claim_C5_first_match "Y" ambiguousSources).2 (by decide)

/-- C6 is corrected by this counterexample: on the three-source record,
the record selected from the artifact index is not unchanged after the
trim step of `verify` — the statement `buildInfo.input = this.trimmedBuildInfoInput(...)`
overwrites the selected record's input in place (C.sol is dropped from
its sources). -/
theorem claim_C6_counterexample :
    findBuildInfoWithContract [trimExampleBuildInfo] "A" = .ok trimExampleBuildInfo
  ∧ selectedRecordAfterTrim [trimExampleBuildInfo] "A" =
      .ok { trimExampleBuildInfo with input := trimmedExampleInput }
  ∧ ((selectedRecordAfterTrim [trimExampleBuildInfo] "A" =
      .ok trimExampleBuildInfo) → False) := by
  refine ⟨by decide, by decide, fun he => ?_⟩
  rw [show selectedRecordAfterTrim [trimExampleBuildInfo] "A" =
      .ok { trimExampleBuildInfo with input := trimmedExampleInput } from by decide] at he
  cases he

/-- C6 (amended): each stage computes a derived value, but `verify`
stores the trimmed input back into the selected record's `input` field,
so after the trim step the selected record equals the original record
only when trimming changed nothing; `attemptVerification` likewise
overwrites the compiler input's `settings.libraries` with the resolved
library links. -/
theorem claim_C6_mutation :
    (∀ (buildInfos : List BuildInfo) (name : String) (bi : BuildInfo)
        (trimmed : CompilerInput),
      findBuildInfoWithContract buildInfos name = .ok bi →
      trimmedBuildInfoInput name bi.input = .ok trimmed →
      selectedRecordAfterTrim buildInfos name = .ok { bi with input := trimmed }
      ∧ (({ bi with input := trimmed } : BuildInfo) = bi ↔ trimmed = bi.input))
  ∧ (∀ (compilerInput : CompilerInput) (links : List (String × String)),
      compilerInputAfterLibraries compilerInput links =
        { compilerInput with libraries := links }) := by
  constructor
  · intro buildInfos name bi trimmed hfind htrim
    constructor
    · unfold selectedRecordAfterTrim
      simp only [hfind, htrim]
    · constructor
      · intro he
        exact (congrArg BuildInfo.input he).symm ▸ rfl
      · intro he
        rw [he]
  · intro compilerInput links
    rfl

/-- Witness for C6 (amended), at the three-source record. -/
theorem claim_C6_mutation_witness :
    selectedRecordAfterTrim [trimExampleBuildInfo] "A" =
      .ok { trimExampleBuildInfo with input := trimmedExampleInput } :=
  (claim_C6_mutation.1 [trimExampleBuildInfo] "A" trimExampleBuildInfo
    trimmedExampleInput (by decide) (by decide)).1

/-- C7: `findBuildInfoWithContract` returns the first record in load
order whose compiled-contract locators contain the requested contract
name — a record qualifies exactly when it follows only non-qualifying
records — and throws a contract-not-found error when no record
qualifies. -/
theorem claim_C7_first_record :
    ∀ (buildInfos : List BuildInfo) (contractName : String),
      (∀ bi, findBuildInfoWithContract buildInfos contractName = .ok bi ↔
        ∃ pre suf, buildInfos = pre ++ bi :: suf
          ∧ (getAllFullyQualifiedNames bi).any (fun nm => nm.2 == contractName) = true
          ∧ ∀ b ∈ pre,
              (getAllFullyQualifiedNames b).any (fun nm => nm.2 == contractName) = false)
    ∧ ((∀ b ∈ buildInfos,
          (getAllFullyQualifiedNames b).any (fun nm => nm.2 == contractName) = false) →
        findBuildInfoWithContract buildInfos contractName =
          .thrown ("Could not find a build info for contract " ++ contractName)) := by
  intro buildInfos contractName
  constructor
  · intro bi
    rw [findBuildInfoWithContract_ok_iff, find?_first]
  · intro hnone
    have hf : buildInfos.find? (fun b =>
        (getAllFullyQualifiedNames b).any (fun nm => nm.2 == contractName)) = none :=
      List.find?_eq_none.mpr (fun b hb => by simp [hnone b hb])
    unfold findBuildInfoWithContract
    rw [hf]

/-- Witness for C7: lookup of a present and of an absent contract name
in a concrete one-record index. -/
theorem claim_C7_first_record_witness :
    findBuildInfoWithContract [trimExampleBuildInfo] "Nope" =
      .thrown ("Could not find a build info for contract " ++ "Nope") :=
  (claim_C7_first_record [trimExampleBuildInfo] "Nope").2 (by decide)

/-- C9: every submission through `verifyContract`, whatever the HTTP
outcome (transport error, `success:false` body, or success), first
writes the complete JSON-rendered request payload to the file
`./<contract_name>.json` in the current working directory and only then
posts it: the effect trace is always exactly the file write followed by
the HTTP post. -/
theorem claim_C9_writes_request_file :
    ∀ (url : String) (req : VerifyRequest) (outcome : HttpOutcome),
      (verifyContract url req outcome).2 =
        [Effect.fileWrite ("./" ++ req.contract_name ++ ".json") (requestJson req),
         Effect.httpPost url (requestJson req)] := by
  intro url req outcome
  cases outcome <;> rfl

/-- C10: an import directive path with no `/` before the file name does
not match the regex `.*\/(\w*)\.sol`, and on a record containing such
an import the closure computation crashes with a runtime type error (the
non-null assertion on the match result), rather than returning a set or
throwing a typed error. -/
theorem claim_C10_regex_crash :
    solPathMatch "Foo.sol" = none
  ∧ getAbsoluteSourcePath "Foo.sol" noSlashSources = .typeError
  ∧ importClosure noSlashSources "contracts/A.sol" = .typeError := by
  exact ⟨by decide, by decide, by decide⟩

end Verifier
